import Mathlib

/-
Verification of the LowCard game engine (src/services/lowcardService.js).

The JavaScript service is shallowly embedded: the Redis keyed store for one
room becomes an explicit `RoomState` record (game snapshot, deck, timer,
cached credit balances); every service entry point becomes a pure Lean
function from the pre-state (plus the wall clock `now` and any values the
environment supplies, such as a freshly shuffled deck) to a result and the
post-state.  Randomness (Fisher-Yates shuffle, lock tokens) and external
stores (SQL, merchant-tag hook) are parameters of the functions that use
them; monetary balances live in `credits : Nat -> Int`.
-/

namespace LowCard

/-- Card record, mirroring `{ value, suit, code, image }` built by
`generateDeck`.  `value` ranges over 2..14 in real decks. -/
structure Card where
  value : Int
  suit : String
  code : String
  image : String
deriving DecidableEq, Repr

/-- Player record pushed by `startGame` / `joinGame`.  `inTieBreaker` is
absent (hence falsy) until a tie round sets it, so it defaults to `false`. -/
structure Player where
  userId : Nat
  username : String
  isEliminated : Bool
  hasDrawn : Bool
  currentCard : Option Card
  inTieBreaker : Bool := false
deriving DecidableEq, Repr

/-- The `status` field of a game snapshot. -/
inductive GStatus where
  | waiting
  | playing
  | finished
deriving DecidableEq, Repr

/-- Game snapshot stored at `lowcard:game:{roomId}` (spec 3.2). Timestamps
are epoch milliseconds.  Optional fields model JS fields that may be
absent. -/
structure Game where
  id : Nat
  roomId : Nat
  status : GStatus
  entryAmount : Int
  pot : Int
  currentRound : Nat
  players : List Player
  startedBy : Nat
  startedByUsername : String
  createdAt : Nat
  joinDeadline : Option Nat := none
  countdownEndsAt : Option Nat := none
  roundDeadline : Option Nat := none
  isTieBreaker : Bool := false
  wasTieBreaker : Bool := false
  isRoundStarted : Bool := false
  winnerId : Option Nat := none
  winnerUsername : Option String := none
  winnings : Int := 0
  houseFee : Int := 0
deriving DecidableEq, Repr

/-- Cached per-user balances (`credits:{userId}` write-through plus the
authoritative `users.credits` column, collapsed into one ledger map). -/
def Credits : Type := Nat → Int

/-- `addCredits(userId, amount)`: unconditional increment of the user's
balance (the SQL `UPDATE users SET credits = credits + $1`). -/
def addCredits (c : Credits) (userId : Nat) (amount : Int) : Credits :=
  fun u => if u = userId then c u + amount else c u

/-- Volatile per-room keyed-store state: the game snapshot, the deck key,
the timer key and the ledger. -/
structure RoomState where
  game : Option Game
  deck : Option (List Card)
  timer : Option Nat
  credits : Credits

def JOIN_TIMEOUT : Nat := 30000
def DRAW_TIMEOUT : Nat := 20000
def COUNTDOWN_DELAY : Nat := 3000
def MIN_ENTRY : Int := 1
def MAX_ENTRY : Int := 999999999
def MIN_ENTRY_BIG_GAME : Int := 50
def STALE_GAME_TIMEOUT : Nat := 120000
def HOUSE_FEE_PERCENT : Int := 10

/-! ### Lock manager

`acquireLock` is Redis `SET key token NX EX ttl`; the slot for one lock key
is `Option String` (the token currently stored, if any).  TTL expiry is an
external event, modelled simply as the slot becoming empty between calls. -/

/-- `acquireLock(lockKey)`: set-if-absent; returns the fresh random `token`
on success and `none` when the key is already held.  The random token is a
parameter. -/
def acquireLock (slot : Option String) (token : String) :
    Option String × Option String :=
  match slot with
  | none => (some token, some token)
  | some t => (none, some t)

/-- `releaseLock(lockKey, token)`: the Lua script
`if get(KEYS[1]) == ARGV[1] then del(KEYS[1]) end`, i.e. delete only when
the stored value equals the caller's token. -/
def releaseLock (slot : Option String) (token : String) : Option String :=
  match slot with
  | none => none
  | some t => if t = token then none else some t

/-! ### Refund helper -/

/-- Credit `entryAmount` to each player of `ps` in turn (the refund loops of
`cancelByStarter`, `stopGame`, `beginGame`, `checkAndCleanupStaleGame`). -/
def refundAll (c : Credits) (entryAmount : Int) (ps : List Player) : Credits :=
  ps.foldl (fun acc p => addCredits acc p.userId entryAmount) c

theorem addCredits_same (c : Credits) (u : Nat) (a : Int) :
    addCredits c u a u = c u + a := by
  simp [addCredits]

theorem addCredits_other (c : Credits) (u v : Nat) (a : Int) (h : v ≠ u) :
    addCredits c u a v = c v := by
  simp [addCredits, h]

/-- Evaluating a refund loop at a user credits `entryAmount` once per
occurrence of that user among the refunded players. -/
theorem refundAll_eval (entryAmount : Int) (ps : List Player) :
    ∀ (c : Credits) (u : Nat),
      refundAll c entryAmount ps u =
        c u + entryAmount * (ps.countP (fun p => p.userId = u)) := by
  induction ps with
  | nil => intro c u; simp [refundAll]
  | cons p ps ih =>
    intro c u
    rw [List.countP_cons]
    by_cases h : p.userId = u
    · have : refundAll c entryAmount (p :: ps) u =
          refundAll (addCredits c p.userId entryAmount) entryAmount ps u := rfl
      rw [this, ih]
      subst h
      simp [addCredits_same]
      ring
    · have : refundAll c entryAmount (p :: ps) u =
          refundAll (addCredits c p.userId entryAmount) entryAmount ps u := rfl
      rw [this, ih, addCredits_other c p.userId u entryAmount (fun hh => h hh.symm)]
      simp [h]

/-- If user `u` is not among `ps`, the refund loop leaves `u` untouched. -/
theorem refundAll_notMem (c : Credits) (e : Int) (ps : List Player) (u : Nat)
    (h : ∀ p ∈ ps, p.userId ≠ u) :
    refundAll c e ps u = c u := by
  rw [refundAll_eval]
  have : ps.countP (fun p => p.userId = u) = 0 := by
    rw [List.countP_eq_zero]
    intro p hp
    simp [h p hp]
  rw [this]
  ring

/-- Under distinct user ids, a member's id is hit exactly once by the
per-player loops. -/
theorem countP_userId_eq_one (ps : List Player)
    (hnd : (ps.map Player.userId).Nodup) (p : Player) (hp : p ∈ ps) :
    ps.countP (fun q => q.userId = p.userId) = 1 := by
  have h1 : ps.countP (fun q => q.userId = p.userId) =
      (ps.map Player.userId).countP (fun x => x = p.userId) := by
    rw [List.countP_map]; rfl
  rw [h1]
  have hmem : p.userId ∈ ps.map Player.userId := List.mem_map_of_mem _ hp
  have := List.nodup_iff_count_le_one.mp hnd p.userId
  have hpos : 0 < (ps.map Player.userId).count p.userId :=
    List.count_pos_iff.mpr hmem
  have hcp : (ps.map Player.userId).countP (fun x => x = p.userId) =
      (ps.map Player.userId).count p.userId := by
    simp [List.count]
    rfl
  rw [hcp]
  omega

/-- Under distinct user ids, each listed player is credited exactly once. -/
theorem refundAll_mem_nodup (c : Credits) (e : Int) (ps : List Player)
    (hnd : (ps.map Player.userId).Nodup) (p : Player) (hp : p ∈ ps) :
    refundAll c e ps p.userId = c p.userId + e := by
  rw [refundAll_eval, countP_userId_eq_one ps hnd p hp]
  ring

/-! ### Claim C7: token-bound lock release -/

/-- C7.  `releaseLock(k, t)` deletes the key exactly when the stored value
equals `t`: after `acquireLock` hands out token `tFresh` on a free slot,
releasing with that token empties the slot, while releasing with a token
that differs from the current holder's leaves the holder's lock in place. -/
theorem releaseLock_token_bound (slot : Option String) (t tFresh t2 : String)
    (hne : t ≠ t2) :
    releaseLock slot t = (if slot = some t then none else slot)
    ∧ (acquireLock none tFresh).1 = some tFresh
    ∧ releaseLock (acquireLock none tFresh).2 tFresh = none
    ∧ releaseLock (some t2) t = some t2 := by
  refine ⟨?_, rfl, by simp [acquireLock, releaseLock], ?_⟩
  · cases slot with
    | none => simp [releaseLock]
    | some v =>
      by_cases h : v = t
      · subst h; simp [releaseLock]
      · simp [releaseLock, h]
  · simp [releaseLock, Ne.symm hne]

/-- Witness for C7 at a concrete slot and tokens. -/
theorem releaseLock_token_bound_witness :
    ("a" : String) ≠ "c"
    ∧ (releaseLock (some "a") "a" = (if (some "a" : Option String) = some "a" then none else some "a")
       ∧ (acquireLock none "b").1 = some "b"
       ∧ releaseLock (acquireLock none "b").2 "b" = none
       ∧ releaseLock (some "c") "a" = some "c") :=
  ⟨by decide, releaseLock_token_bound (some "a") "a" "b" "c" (by decide)⟩

/-! ### Stale-game cleanup (claim C10) -/

/-- Result and post-state of `checkAndCleanupStaleGame(roomId)`: refunds and
deletes a `waiting` game whose join deadline passed more than
`STALE_GAME_TIMEOUT` ago; otherwise returns `null` and changes nothing.
The JS truthiness test `game.joinDeadline` requires the field present and
non-zero. -/
def checkAndCleanupStaleGame (s : RoomState) (now : Nat) :
    Option Bool × RoomState :=
  match s.game with
  | none => (none, s)
  | some g =>
    match g.joinDeadline with
    | some jd =>
      if g.status = .waiting ∧ jd ≠ 0 ∧ jd + STALE_GAME_TIMEOUT < now then
        (some true,
         { game := none, deck := none, timer := none,
           credits := refundAll s.credits g.entryAmount g.players })
      else (none, s)
    | none => (none, s)

/-- C10.  Whenever the game is not a stale waiting game — its status is not
`waiting`, or `joinDeadline` is absent, or the current time is at most
`joinDeadline + 120 s` — `checkAndCleanupStaleGame` returns `null` and
leaves the room state (game key, deck key, timer key, all balances)
exactly as it was; in particular a `playing` game is never touched. -/
theorem checkAndCleanupStaleGame_frame (s : RoomState) (now : Nat) (g : Game)
    (hg : s.game = some g)
    (h : g.status ≠ .waiting ∨ g.joinDeadline = none ∨
         (∀ jd, g.joinDeadline = some jd → now ≤ jd + STALE_GAME_TIMEOUT)) :
    checkAndCleanupStaleGame s now = (none, s) := by
  cases hjd : g.joinDeadline with
  | none => simp [checkAndCleanupStaleGame, hg, hjd]
  | some jd =>
    have hcond : ¬(g.status = .waiting ∧ jd ≠ 0 ∧ jd + STALE_GAME_TIMEOUT < now) := by
      rcases h with h1 | h2 | h3
      · intro hc; exact h1 hc.1
      · rw [hjd] at h2; exact absurd h2 (by simp)
      · intro hc
        have := h3 jd hjd
        omega
    simp only [checkAndCleanupStaleGame, hg, hjd]
    rw [if_neg hcond]

/-- Concrete playing-game state used as the C10 witness input. -/
def c10Game : Game :=
  { id := 1, roomId := 7, status := .playing, entryAmount := 10, pot := 20,
    currentRound := 1,
    players := [
      { userId := 1, username := "alice", isEliminated := false,
        hasDrawn := false, currentCard := none },
      { userId := 2, username := "bob", isEliminated := false,
        hasDrawn := false, currentCard := none }],
    startedBy := 1, startedByUsername := "alice", createdAt := 1000,
    joinDeadline := some 31000 }

def c10State : RoomState :=
  { game := some c10Game, deck := none, timer := some 99, credits := fun _ => 0 }

/-- Witness for C10: a `playing` game far past any deadline is untouched. -/
theorem checkAndCleanupStaleGame_frame_witness :
    c10State.game = some c10Game
    ∧ (c10Game.status ≠ .waiting ∨ c10Game.joinDeadline = none ∨
       (∀ jd, c10Game.joinDeadline = some jd → 999999999 ≤ jd + STALE_GAME_TIMEOUT))
    ∧ checkAndCleanupStaleGame c10State 999999999 = (none, c10State) :=
  ⟨rfl, Or.inl (by decide),
   checkAndCleanupStaleGame_frame c10State 999999999 c10Game rfl (Or.inl (by decide))⟩

/-! ### Cancel / stop / reset / begin (claim C3) -/

/-- Result object `{success, message, silent, isPvt}` returned by the engine
entry points. -/
structure OpResult where
  success : Bool
  message : String := ""
  silent : Bool := false
  isPvt : Bool := false
deriving DecidableEq, Repr

/-- `cleanupRedisKeys(roomId)`: deletes the game, deck, timer and lock keys
for the room (the lock slots are modelled separately from `RoomState`). -/
def cleanupRedisKeys (s : RoomState) : RoomState :=
  { s with game := none, deck := none, timer := none }

/-- `cancelByStarter(roomId, userId, username)`: only while `waiting` and
only by the starter; refunds every listed player and deletes all keys. -/
def cancelByStarter (s : RoomState) (userId : Nat) (username : String) :
    OpResult × RoomState :=
  match s.game with
  | none => ({ success := false, silent := true }, s)
  | some g =>
    if g.status ≠ .waiting then
      ({ success := false,
         message := username ++ ": Cannot cancel, game already started.",
         isPvt := true }, s)
    else if g.startedBy ≠ userId then
      ({ success := false,
         message := username ++ ": Only the game starter can cancel.",
         isPvt := true }, s)
    else
      ({ success := true, message := "Game cancelled by " ++ username ++ "." },
       cleanupRedisKeys
         { s with credits := refundAll s.credits g.entryAmount g.players })

/-- `stopGame(roomId)`: rejected once the game is `playing`; otherwise
refunds every listed player and deletes all keys. -/
def stopGame (s : RoomState) : OpResult × RoomState :=
  match s.game with
  | none => ({ success := false, message := "No active game to stop." }, s)
  | some g =>
    if g.status = .playing then
      ({ success := false,
         message := "Cannot stop game once it has started." }, s)
    else
      ({ success := true,
         message := "Game stopped. All credits have been refunded." },
       cleanupRedisKeys
         { s with credits := refundAll s.credits g.entryAmount g.players })

/-- `resetGame(roomId, byUsername)`: unconditional; the refund loop skips
players with `isEliminated` set, then deletes the game, timer and deck
keys. -/
def resetGame (s : RoomState) (byUsername : String) : OpResult × RoomState :=
  match s.game with
  | none => ({ success := false, message := "No active game to reset." }, s)
  | some g =>
    let c := g.players.foldl
      (fun acc p =>
        if p.isEliminated then acc else addCredits acc p.userId g.entryAmount)
      s.credits
    ({ success := true, message := "Game reset." },
     { game := none, deck := none, timer := none, credits := c })

/-- Outcome of `beginGame`. -/
inductive BeginResult where
  | cancelled
  | started (playerCount : Nat)
deriving DecidableEq, Repr

/-- `beginGame(roomId)`: fired at the join deadline.  With fewer than two
players it refunds everyone and deletes all keys; otherwise it flips the
game to `playing`, resets each player's draw state, installs a fresh deck
(the shuffle is the `freshDeck` parameter) and sets the countdown and round
deadlines. -/
def beginGame (s : RoomState) (now : Nat) (freshDeck : List Card) :
    Option BeginResult × RoomState :=
  match s.game with
  | none => (none, s)
  | some g =>
    if g.status ≠ .waiting then (none, s)
    else if g.players.length < 2 then
      (some .cancelled,
       cleanupRedisKeys
         { s with credits := refundAll s.credits g.entryAmount g.players })
    else
      let ps := g.players.map
        (fun p => { p with hasDrawn := false, currentCard := none })
      let g2 := { g with
        status := .playing, currentRound := 1, isRoundStarted := true,
        players := ps,
        countdownEndsAt := some (now + COUNTDOWN_DELAY),
        roundDeadline := some (now + COUNTDOWN_DELAY + DRAW_TIMEOUT) }
      (some (.started ps.length),
       { s with game := some g2, deck := some freshDeck })

/-- The reset refund loop equals `refundAll` over the non-eliminated
players. -/
theorem resetGame_foldl_eq_refundAll (c : Credits) (e : Int) (ps : List Player) :
    ps.foldl
      (fun acc p => if p.isEliminated then acc else addCredits acc p.userId e) c
    = refundAll c e (ps.filter (fun p => !p.isEliminated)) := by
  induction ps generalizing c with
  | nil => rfl
  | cons p ps ih =>
    by_cases h : p.isEliminated
    · simp [List.foldl_cons, List.filter_cons, h, ih]
    · simp [List.foldl_cons, List.filter_cons, h, ih, refundAll]

/-- Concrete state with one eliminated player, used to refute C3's claim
about `resetGame`. -/
def c3Game : Game :=
  { id := 2, roomId := 9, status := .playing, entryAmount := 10, pot := 20,
    currentRound := 2,
    players := [
      { userId := 1, username := "alice", isEliminated := false,
        hasDrawn := false, currentCard := none },
      { userId := 2, username := "bob", isEliminated := true,
        hasDrawn := false, currentCard := none }],
    startedBy := 1, startedByUsername := "alice", createdAt := 1000,
    joinDeadline := some 31000 }

def c3State : RoomState :=
  { game := some c3Game, deck := none, timer := none, credits := fun _ => 100 }

/-- Counterexample to C3 as stated: `resetGame` does not credit the
eliminated participant (user 2 keeps balance 100 instead of being credited
back the 10-coin entry). -/
theorem resetGame_eliminated_not_refunded :
    (c3State.game = some c3Game
     ∧ c3Game.players.get ⟨1, by decide⟩ ∈ c3Game.players
     ∧ (c3Game.players.get ⟨1, by decide⟩).isEliminated = true)
    ∧ (resetGame c3State "admin").2.credits 2 = 100
    ∧ (resetGame c3State "admin").2.credits 2 ≠
        c3State.credits 2 + c3Game.entryAmount := by
  refine ⟨⟨rfl, by decide, by decide⟩, by decide, by decide⟩

/-- C3 (amended).  Assuming distinct user ids (invariant I2): after a
successful `cancelByStarter` (status `waiting`, caller is the starter),
after `stopGame` on a `waiting` game, and after the not-enough-players
branch of `beginGame`, every participant listed in `players` is credited
back exactly `entryAmount`; `resetGame` credits back exactly the
non-eliminated participants and leaves eliminated participants' balances
unchanged. -/
theorem refund_paths_credit_back (s : RoomState) (g : Game) (userId : Nat)
    (username byUser : String) (now : Nat) (freshDeck : List Card)
    (hg : s.game = some g)
    (hnd : (g.players.map Player.userId).Nodup) :
    (g.status = .waiting → g.startedBy = userId →
       ∀ p ∈ g.players,
         (cancelByStarter s userId username).2.credits p.userId =
           s.credits p.userId + g.entryAmount)
    ∧ (g.status = .waiting →
       ∀ p ∈ g.players,
         (stopGame s).2.credits p.userId =
           s.credits p.userId + g.entryAmount)
    ∧ (g.status = .waiting → g.players.length < 2 →
       ∀ p ∈ g.players,
         (beginGame s now freshDeck).2.credits p.userId =
           s.credits p.userId + g.entryAmount)
    ∧ (∀ p ∈ g.players, p.isEliminated = false →
         (resetGame s byUser).2.credits p.userId =
           s.credits p.userId + g.entryAmount)
    ∧ (∀ p ∈ g.players, p.isEliminated = true →
         (resetGame s byUser).2.credits p.userId = s.credits p.userId) := by
  have hfilter_nd :
      ((g.players.filter (fun p => !p.isEliminated)).map Player.userId).Nodup :=
    List.Nodup.sublist
      (List.Sublist.map Player.userId (List.filter_sublist _)) hnd
  refine ⟨?_, ?_, ?_, ?_, ?_⟩
  · intro hw hst p hp
    simp only [cancelByStarter, hg, hw, hst]
    simp [cleanupRedisKeys, refundAll_mem_nodup s.credits g.entryAmount g.players hnd p hp]
  · intro hw p hp
    have hnp : g.status ≠ .playing := by rw [hw]; intro h; cases h
    simp only [stopGame, hg]
    rw [if_neg hnp]
    simp [cleanupRedisKeys, refundAll_mem_nodup s.credits g.entryAmount g.players hnd p hp]
  · intro hw hlen p hp
    simp only [beginGame, hg, hw]
    simp only [ne_eq, not_true_eq_false, if_false, hlen, if_true]
    simp [cleanupRedisKeys, refundAll_mem_nodup s.credits g.entryAmount g.players hnd p hp]
  · intro p hp hne
    simp only [resetGame, hg]
    rw [resetGame_foldl_eq_refundAll]
    have hpf : p ∈ g.players.filter (fun q => !q.isEliminated) := by
      rw [List.mem_filter]
      exact ⟨hp, by simp [hne]⟩
    simpa using refundAll_mem_nodup s.credits g.entryAmount _ hfilter_nd p hpf
  · intro p hp helim
    simp only [resetGame, hg]
    rw [resetGame_foldl_eq_refundAll]
    apply refundAll_notMem
    intro q hq hqp
    rw [List.mem_filter] at hq
    have hqe := hq.2
    have hqp2 : q = p := List.inj_on_of_nodup_map hnd hq.1 hp hqp
    rw [hqp2, helim] at hqe
    exact absurd hqe (by decide)

def w3p1 : Player :=
  { userId := 1, username := "alice", isEliminated := false,
    hasDrawn := false, currentCard := none }

def w3p2 : Player :=
  { userId := 2, username := "bob", isEliminated := true,
    hasDrawn := false, currentCard := none }

/-- Concrete waiting game (starter alice, bob already eliminated) used to
witness the amended C3. -/
def w3Game : Game :=
  { id := 3, roomId := 4, status := .waiting, entryAmount := 10, pot := 20,
    currentRound := 0, players := [w3p1, w3p2],
    startedBy := 1, startedByUsername := "alice", createdAt := 1000,
    joinDeadline := some 31000 }

def w3State : RoomState :=
  { game := some w3Game, deck := none, timer := none, credits := fun _ => 100 }

/-- Witness for the amended C3, instantiated at `w3State`. -/
theorem refund_paths_credit_back_witness :
    (cancelByStarter w3State 1 "alice").2.credits 1 =
        w3State.credits 1 + w3Game.entryAmount
    ∧ (stopGame w3State).2.credits 1 =
        w3State.credits 1 + w3Game.entryAmount
    ∧ (resetGame w3State "admin").2.credits 1 =
        w3State.credits 1 + w3Game.entryAmount
    ∧ (resetGame w3State "admin").2.credits 2 = w3State.credits 2 :=
  have T := refund_paths_credit_back w3State w3Game 1 "alice" "admin" 0 []
    rfl (by decide)
  ⟨T.1 rfl rfl w3p1 (by decide),
   (T.2.1 rfl w3p1 (by decide)),
   (T.2.2.2.1 w3p1 (by decide) rfl),
   (T.2.2.2.2 w3p2 (by decide) rfl)⟩

/-! ### joinGame and startGame (claims C4, C5, C6, C8)

The merchant-tag hook consulted by `deductCredits` is out of scope for the
spec ("treated as an opaque ledger hook"); it is modelled as consuming
nothing, so a successful deduction takes the full amount from the cached
balance, exactly as the SQL conditional update does when no tagged credits
exist. -/

/-- `deductCredits(userId, amount)`: conditional decrement — fails without
touching anything when the balance is below `amount`. -/
def deductCredits (c : Credits) (userId : Nat) (amount : Int) :
    Bool × Credits :=
  if c userId < amount then (false, c)
  else (true, addCredits c userId (-amount))

/-- Body of `joinGame` once the snapshot `g` has been read: rejects when
the game is not `waiting`, the join deadline has passed, the user already
joined, or the deduction fails; otherwise appends the player, adds the
entry to the pot and persists the snapshot. -/
def joinGameWith (s : RoomState) (g : Game) (now : Nat) (userId : Nat)
    (username : String) : OpResult × RoomState :=
  if g.status ≠ .waiting then
      ({ success := false,
         message := "Game already in progress. Wait for the next round.",
         isPvt := true }, s)
    else if (match g.joinDeadline with
             | some d => decide (d < now)
             | none => false) then
      ({ success := false, message := "Join period has ended.",
         isPvt := true }, s)
    else if g.players.any (fun p => p.userId == userId) then
      ({ success := false,
         message := "LowCardBot: You have already joined this game.",
         isPvt := true }, s)
    else
      let d := deductCredits s.credits userId g.entryAmount
      if d.1 = false then
        ({ success := false, message := "You not enough credite",
           isPvt := true }, s)
      else
        let newPlayer : Player :=
          { userId := userId, username := username, isEliminated := false,
            hasDrawn := false, currentCard := none }
        let g2 := { g with
          players := g.players ++ [newPlayer],
          pot := g.pot + g.entryAmount }
        ({ success := true, message := username ++ " joined the game." },
         { s with game := some g2, credits := d.2 })

/-- `joinGame(roomId, userId, username)`: silent reject when there is no
game, else `joinGameWith` on the stored snapshot.  The join lock is
modelled as acquired. -/
def joinGame (s : RoomState) (now : Nat) (userId : Nat) (username : String) :
    OpResult × RoomState :=
  match s.game with
  | none => ({ success := false, silent := true }, s)
  | some g => joinGameWith s g now userId username

theorem joinGame_some_eq (s : RoomState) (g : Game) (now userId : Nat)
    (username : String) (hg : s.game = some g) :
    joinGame s now userId username = joinGameWith s g now userId username := by
  unfold joinGame
  rw [hg]

theorem joinGame_none_eq (s : RoomState) (now userId : Nat)
    (username : String) (hg : s.game = none) :
    joinGame s now userId username =
      ({ success := false, silent := true }, s) := by
  unfold joinGame
  rw [hg]

/-- Environment inputs of one `startGame` call: results of the external
lookups and of the keyed-store writes that can fail. -/
structure StartEnv where
  /-- the room's name contains "big game" (case-insensitive SQL lookup) -/
  isBigGame : Bool
  /-- `parseInt(amount)`; `none` models an absent or non-numeric argument -/
  requested : Option Int
  /-- the `redis.set` of the fresh snapshot succeeds -/
  writeOk : Bool
  /-- the read-back verification finds the snapshot -/
  verifyOk : Bool
  /-- an exception is thrown after the deduction succeeded -/
  raiseAfterDeduct : Bool
  /-- identifier from `Date.now()` / the `lowcard_games` insert -/
  gameId : Nat

/-- `parseInt(amount) || minEntry`: absent, NaN and 0 all fall back to the
room's minimum entry. -/
def startEntry (env : StartEnv) : Int :=
  let minEntry : Int := if env.isBigGame then MIN_ENTRY_BIG_GAME else MIN_ENTRY
  match env.requested with
  | none => minEntry
  | some a => if a = 0 then minEntry else a

/-- The snapshot object built by `startGame` step 7: one player (the
starter), `pot = entryAmount`, `joinDeadline = now + 30 s`. -/
def freshGame (now roomId userId : Nat) (username : String)
    (env : StartEnv) : Game :=
  { id := env.gameId, roomId := roomId, status := .waiting,
    entryAmount := startEntry env, pot := startEntry env, currentRound := 0,
    players := [{ userId := userId, username := username,
                  isEliminated := false, hasDrawn := false,
                  currentCard := none }],
    startedBy := userId, startedByUsername := username,
    createdAt := now, joinDeadline := some (now + JOIN_TIMEOUT) }

/-- Amount validation, deduction, snapshot construction, write,
verification and rollback of `startGame` (everything after the
existing-game checks). -/
def startGameCore (s : RoomState) (now roomId userId : Nat)
    (username : String) (env : StartEnv) : OpResult × RoomState :=
  let minEntry : Int := if env.isBigGame then MIN_ENTRY_BIG_GAME else MIN_ENTRY
  let requestedAmount : Int := startEntry env
  if requestedAmount < minEntry then
    ({ success := false,
       message := "Minimal " ++ toString minEntry ++ " COINS to start game.",
       isPvt := true }, s)
  else if env.isBigGame = false ∧ MAX_ENTRY < requestedAmount then
    ({ success := false,
       message := "Maximal " ++ toString MAX_ENTRY ++ " COINS to start game.",
       isPvt := true }, s)
  else
    let entryAmount := requestedAmount
    let d := deductCredits s.credits userId entryAmount
    if d.1 = false then
      ({ success := false, message := "You not enough credite",
         isPvt := true }, s)
    else
      let game : Game := freshGame now roomId userId username env
      if env.raiseAfterDeduct then
        ({ success := false,
           message := "Game creation error. Credits refunded. Please try again.",
           isPvt := true },
         { s with credits := addCredits d.2 userId entryAmount })
      else if env.writeOk = false then
        ({ success := false,
           message := "Failed to create game. Credits refunded. Please try again.",
           isPvt := true },
         { s with credits := addCredits d.2 userId entryAmount })
      else if env.verifyOk = false then
        ({ success := false,
           message := "Game verification failed. Credits refunded. Please try again.",
           isPvt := true },
         { s with
           game := some game,
           credits := addCredits d.2 userId entryAmount })
      else
        ({ success := true,
           message := "LowCard started by " ++ username ++ "." },
         { s with game := some game, credits := d.2 })

/-- `startGame(roomId, userId, username, amount)`: stale-game sweep,
existing-game guard with the stuck-game (no timer, `waiting`, older than
40 s) auto-cleanup, then `startGameCore`.  The start lock is modelled as
acquired (a contended call returns early with no effect). -/
def startGame (s : RoomState) (now roomId userId : Nat) (username : String)
    (env : StartEnv) : OpResult × RoomState :=
  let s1 := (checkAndCleanupStaleGame s now).2
  match s1.game with
  | some g =>
    if g.status = .waiting ∨ g.status = .playing then
      if s1.timer = none ∧ g.status = .waiting ∧ g.createdAt + 40000 < now then
        startGameCore
          { s1 with
            game := none, deck := none,
            credits := refundAll s1.credits g.entryAmount g.players }
          now roomId userId username env
      else
        ({ success := false,
           message := "A game is already in progress. Use !j to join.",
           isPvt := true }, s1)
    else
      startGameCore { s1 with game := none } now roomId userId username env
  | none => startGameCore s1 now roomId userId username env

theorem checkAndCleanupStaleGame_none (s : RoomState) (now : Nat)
    (hg : s.game = none) : checkAndCleanupStaleGame s now = (none, s) := by
  simp [checkAndCleanupStaleGame, hg]

/-- With no pre-existing game, `startGame` reduces to `startGameCore`. -/
theorem startGame_none_eq_core (s : RoomState) (now roomId userId : Nat)
    (username : String) (env : StartEnv) (hg : s.game = none) :
    startGame s now roomId userId username env =
      startGameCore s now roomId userId username env := by
  unfold startGame
  rw [checkAndCleanupStaleGame_none s now hg]
  simp only [hg]

theorem startEntry_some_ne_zero (env : StartEnv) (a : Int)
    (ha : env.requested = some a) (h0 : a ≠ 0) : startEntry env = a := by
  simp [startEntry, ha, h0]

/-- `startGameCore` either leaves the game key as it found it or stores the
fresh one-player snapshot. -/
theorem startGameCore_game_shape (s : RoomState) (now roomId userId : Nat)
    (username : String) (env : StartEnv) :
    (startGameCore s now roomId userId username env).2.game = s.game
    ∨ (startGameCore s now roomId userId username env).2.game =
        some (freshGame now roomId userId username env) := by
  simp only [startGameCore]
  split_ifs <;> simp

/-! ### Claim C6: amount validation in startGame -/

def c6State : RoomState :=
  { game := none, deck := none, timer := none, credits := fun _ => 100 }

def c6Env : StartEnv :=
  { isBigGame := false, requested := some 0, writeOk := true,
    verifyOk := true, raiseAfterDeduct := false, gameId := 5 }

/-- Counterexample to C6 as stated: a requested amount of `0` is not
rejected.  `parseInt(amount) || minEntry` treats `0` as falsy, so the call
falls back to `minEntry = 1`, deducts 1 coin and writes a snapshot. -/
theorem startGame_zero_amount_not_rejected :
    c6Env.requested = some 0
    ∧ (startGame c6State 1000 7 1 "alice" c6Env).1.success = true
    ∧ (startGame c6State 1000 7 1 "alice" c6Env).2.credits 1 = 99
    ∧ (startGame c6State 1000 7 1 "alice" c6Env).2.game ≠ none := by
  refine ⟨rfl, by decide, by decide, by decide⟩

/-- C6 (amended).  A negative requested amount is rejected with the
"Minimal X COINS" message, no deduction and no snapshot; a requested
amount of zero is treated like an absent amount and falls back to the
room's `minEntry` (1 normally, 50 in a "big game" room). -/
theorem startGame_negative_amount_rejected (s : RoomState)
    (now roomId userId : Nat) (username : String) (env : StartEnv) (a : Int)
    (hg : s.game = none) (ha : env.requested = some a) (hneg : a < 0) :
    startGame s now roomId userId username env =
      ({ success := false,
         message := "Minimal " ++
           toString (if env.isBigGame then MIN_ENTRY_BIG_GAME else MIN_ENTRY)
           ++ " COINS to start game.",
         isPvt := true }, s) := by
  rw [startGame_none_eq_core s now roomId userId username env hg]
  have h0 : a ≠ 0 := by omega
  have hentry : startEntry env = a := startEntry_some_ne_zero env a ha h0
  have hlt : a < (if env.isBigGame then MIN_ENTRY_BIG_GAME else MIN_ENTRY) := by
    cases env.isBigGame <;> simp [MIN_ENTRY, MIN_ENTRY_BIG_GAME] <;> omega
  simp only [startGameCore, hentry]
  rw [if_pos hlt]

def c6bEnv : StartEnv :=
  { isBigGame := false, requested := some (-5), writeOk := true,
    verifyOk := true, raiseAfterDeduct := false, gameId := 5 }

/-- Witness for the amended C6 at a concrete negative amount. -/
theorem startGame_negative_amount_rejected_witness :
    (c6State.game = none ∧ c6bEnv.requested = some (-5) ∧ (-5 : Int) < 0)
    ∧ startGame c6State 1000 7 1 "alice" c6bEnv =
      ({ success := false,
         message := "Minimal " ++
           toString (if c6bEnv.isBigGame then MIN_ENTRY_BIG_GAME else MIN_ENTRY)
           ++ " COINS to start game.",
         isPvt := true }, c6State) :=
  ⟨⟨rfl, rfl, by decide⟩,
   startGame_negative_amount_rejected c6State 1000 7 1 "alice" c6bEnv (-5)
     rfl rfl (by decide)⟩

/-! ### Claim C8: rollback refund on startGame failure after deduction -/

theorem addCredits_roundtrip (c : Credits) (u : Nat) (a : Int) (v : Nat) :
    addCredits (addCredits c u (-a)) u a v = c v := by
  by_cases h : v = u
  · subst h; simp [addCredits]
  · simp [addCredits, h]

/-- C8.  Whenever `startGame` gets past a successful deduction (valid
amount, sufficient balance) and then fails — snapshot write failure,
read-back verification failure, or an exception after the deduction — the
starter is refunded the deducted entry, every balance ends where it
started, and the call reports a game-creation failure with
`success = false`. -/
theorem startGame_failure_refunds (s : RoomState) (now roomId userId : Nat)
    (username : String) (env : StartEnv) (a : Int)
    (hg : s.game = none) (ha : env.requested = some a)
    (hmin : (if env.isBigGame then MIN_ENTRY_BIG_GAME else MIN_ENTRY) ≤ a)
    (hmax : env.isBigGame = false → a ≤ MAX_ENTRY)
    (hcred : a ≤ s.credits userId)
    (hfail : env.raiseAfterDeduct = true ∨ env.writeOk = false ∨
             env.verifyOk = false) :
    (startGame s now roomId userId username env).1.success = false
    ∧ (∀ u, (startGame s now roomId userId username env).2.credits u =
        s.credits u)
    ∧ ((startGame s now roomId userId username env).1.message =
         "Game creation error. Credits refunded. Please try again."
       ∨ (startGame s now roomId userId username env).1.message =
         "Failed to create game. Credits refunded. Please try again."
       ∨ (startGame s now roomId userId username env).1.message =
         "Game verification failed. Credits refunded. Please try again.") := by
  rw [startGame_none_eq_core s now roomId userId username env hg]
  have hminpos : (1 : Int) ≤ (if env.isBigGame then MIN_ENTRY_BIG_GAME else MIN_ENTRY) := by
    cases env.isBigGame <;> simp [MIN_ENTRY, MIN_ENTRY_BIG_GAME]
  have h0 : a ≠ 0 := by omega
  have hnlt : ¬(a < (if env.isBigGame then MIN_ENTRY_BIG_GAME else MIN_ENTRY)) := by
    omega
  have hnmax : ¬(env.isBigGame = false ∧ MAX_ENTRY < a) := by
    rintro ⟨hb, hlt⟩
    have := hmax hb
    omega
  have hded : deductCredits s.credits userId a = (true, addCredits s.credits userId (-a)) := by
    rw [deductCredits, if_neg (by omega)]
  have hentry : startEntry env = a := startEntry_some_ne_zero env a ha h0
  simp only [startGameCore, hentry, if_neg hnlt, if_neg hnmax, hded]
  rcases hfail with hr | hw | hv
  · simp [hr, addCredits_roundtrip]
  · cases hre : env.raiseAfterDeduct
    · simp [hre, hw, addCredits_roundtrip]
    · simp [hre, addCredits_roundtrip]
  · cases hre : env.raiseAfterDeduct
    · cases hwe : env.writeOk
      · simp [hre, hwe, addCredits_roundtrip]
      · simp [hre, hwe, hv, addCredits_roundtrip]
    · simp [hre, addCredits_roundtrip]

def c8Env : StartEnv :=
  { isBigGame := false, requested := some 10, writeOk := false,
    verifyOk := true, raiseAfterDeduct := false, gameId := 5 }

/-- Witness for C8: a failed snapshot write refunds the starter. -/
theorem startGame_failure_refunds_witness :
    (c6State.game = none ∧ c8Env.requested = some 10
     ∧ (if c8Env.isBigGame then MIN_ENTRY_BIG_GAME else MIN_ENTRY) ≤ 10
     ∧ (c8Env.isBigGame = false → (10 : Int) ≤ MAX_ENTRY)
     ∧ (10 : Int) ≤ c6State.credits 1
     ∧ (c8Env.raiseAfterDeduct = true ∨ c8Env.writeOk = false ∨
        c8Env.verifyOk = false))
    ∧ ((startGame c6State 1000 7 1 "alice" c8Env).1.success = false
       ∧ (∀ u, (startGame c6State 1000 7 1 "alice" c8Env).2.credits u =
           c6State.credits u)
       ∧ ((startGame c6State 1000 7 1 "alice" c8Env).1.message =
            "Game creation error. Credits refunded. Please try again."
          ∨ (startGame c6State 1000 7 1 "alice" c8Env).1.message =
            "Failed to create game. Credits refunded. Please try again."
          ∨ (startGame c6State 1000 7 1 "alice" c8Env).1.message =
            "Game verification failed. Credits refunded. Please try again.")) :=
  ⟨⟨rfl, rfl, by decide, fun _ => by decide, by decide, Or.inr (Or.inl rfl)⟩,
   startGame_failure_refunds c6State 1000 7 1 "alice" c8Env 10 rfl rfl
     (by decide) (fun _ => by decide) (by decide) (Or.inr (Or.inl rfl))⟩

/-! ### Claim C4: pot = entryAmount * |players| -/

/-- C4.  Any snapshot left in the keyed store by a `startGame` call on an
empty room has exactly one player and `pot = entryAmount`; and if a
snapshot satisfies `pot = entryAmount * |players|`, then any snapshot left
by a `joinGame` call still satisfies it, a successful join appending
exactly one player and adding exactly `entryAmount` to the pot. -/
theorem pot_invariant (s : RoomState) (now roomId userId : Nat)
    (username : String) (env : StartEnv)
    (s2 : RoomState) (now2 uid2 : Nat) (un2 : String) (g : Game)
    (hg : s.game = none)
    (hg2 : s2.game = some g)
    (hpot : g.pot = g.entryAmount * g.players.length) :
    (∀ g1, (startGame s now roomId userId username env).2.game = some g1 →
       g1.players.length = 1 ∧ g1.pot = g1.entryAmount * g1.players.length)
    ∧ (∀ g3, (joinGame s2 now2 uid2 un2).2.game = some g3 →
         g3.pot = g3.entryAmount * g3.players.length)
    ∧ ((joinGame s2 now2 uid2 un2).1.success = true →
       ∃ g3, (joinGame s2 now2 uid2 un2).2.game = some g3
         ∧ g3.players.length = g.players.length + 1
         ∧ g3.pot = g.pot + g.entryAmount
         ∧ g3.entryAmount = g.entryAmount) := by
  refine ⟨?_, ?_, ?_⟩
  · intro g1 h1
    rw [startGame_none_eq_core s now roomId userId username env hg] at h1
    rcases startGameCore_game_shape s now roomId userId username env with hsh | hsh
    · rw [hsh, hg] at h1; cases h1
    · rw [hsh, Option.some_inj] at h1
      subst h1
      refine ⟨rfl, ?_⟩
      simp [freshGame]
  · intro g3 h3
    rw [joinGame_some_eq s2 g now2 uid2 un2 hg2] at h3
    unfold joinGameWith at h3
    dsimp only at h3
    split_ifs at h3 <;> dsimp only at h3 <;>
      first
        | (rw [hg2] at h3; injection h3 with h4; subst h4; exact hpot)
        | (injection h3 with h4; subst h4
           simp only [List.length_append, List.length_cons, List.length_nil,
             Nat.cast_add, Nat.cast_one]
           rw [hpot]; ring)
  · intro hsucc
    rw [joinGame_some_eq s2 g now2 uid2 un2 hg2] at hsucc ⊢
    unfold joinGameWith at hsucc ⊢
    dsimp only at hsucc ⊢
    split_ifs at hsucc ⊢ <;> dsimp only at hsucc <;>
      first
        | (exact absurd hsucc (by decide))
        | (exact ⟨_, rfl, by simp, rfl, rfl⟩)

/-! ### Claim C5: no duplicate join, distinct user ids -/

/-- Serialized sequence of `joinGame` calls: each request carries its wall
clock, user id and username. -/
def joinSeq (s : RoomState) : List (Nat × Nat × String) → RoomState
  | [] => s
  | (now, uid, un) :: rest => joinSeq (joinGame s now uid un).2 rest

/-- A single `joinGame` preserves distinctness of the players' user ids. -/
theorem joinGame_preserves_nodup (s : RoomState) (now uid : Nat) (un : String)
    (hinv : ∀ g, s.game = some g → (g.players.map Player.userId).Nodup) :
    ∀ g2, (joinGame s now uid un).2.game = some g2 →
      (g2.players.map Player.userId).Nodup := by
  intro g2 h2
  cases hg : s.game with
  | none =>
    rw [joinGame_none_eq s now uid un hg] at h2
    exact hinv g2 h2
  | some g =>
    rw [joinGame_some_eq s g now uid un hg] at h2
    unfold joinGameWith at h2
    dsimp only at h2
    split_ifs at h2 with h1 hdl hdup hd <;> dsimp only at h2
    · exact hinv g2 h2
    · exact hinv g2 h2
    · exact hinv g2 h2
    · exact hinv g2 h2
    · injection h2 with h3
      subst h3
      have hnd := hinv g hg
      have hnotin : uid ∉ g.players.map Player.userId := by
        intro hmem
        rcases List.mem_map.mp hmem with ⟨p, hp, hpid⟩
        have : g.players.any (fun p => p.userId == uid) = true := by
          rw [List.any_eq_true]
          exact ⟨p, hp, by simp [hpid]⟩
        exact hdup this
      simp only [List.map_append, List.map_cons, List.map_nil]
      rw [List.nodup_append]
      refine ⟨hnd, List.nodup_singleton _, ?_⟩
      intro x hx
      simp only [List.mem_singleton]
      intro hxu
      subst hxu
      exact hnotin hx

/-- C5.  A `joinGame` by a user id already in `players` is rejected with no
deduction and an unchanged room state; the single-player snapshot written
by `startGame` has distinct user ids; and any sequence of serialized
`joinGame` calls preserves distinctness of user ids, so reachable
snapshots have each `userId` exactly once. -/
theorem joinGame_no_duplicate (s : RoomState) (now userId : Nat)
    (username : String) (g : Game)
    (s1 : RoomState) (now1 roomId1 uid1 : Nat) (un1 : String) (env1 : StartEnv)
    (s2 : RoomState) (reqs : List (Nat × Nat × String))
    (hg : s.game = some g)
    (hdup : userId ∈ g.players.map Player.userId) :
    ((joinGame s now userId username).1.success = false
     ∧ (joinGame s now userId username).2 = s)
    ∧ (s1.game = none →
       ∀ g1, (startGame s1 now1 roomId1 uid1 un1 env1).2.game = some g1 →
         (g1.players.map Player.userId).Nodup)
    ∧ ((∀ g2, s2.game = some g2 → (g2.players.map Player.userId).Nodup) →
       ∀ g3, (joinSeq s2 reqs).game = some g3 →
         (g3.players.map Player.userId).Nodup) := by
  refine ⟨?_, ?_, ?_⟩
  · have hany : g.players.any (fun p => p.userId == userId) = true := by
      rw [List.any_eq_true]
      rcases List.mem_map.mp hdup with ⟨p, hp, hpid⟩
      exact ⟨p, hp, by simp [hpid]⟩
    rw [joinGame_some_eq s g now userId username hg]
    unfold joinGameWith
    dsimp only
    split_ifs with h1 hdl hdup2 <;> simp_all
  · intro hnone g1 h1
    rw [startGame_none_eq_core s1 now1 roomId1 uid1 un1 env1 hnone] at h1
    rcases startGameCore_game_shape s1 now1 roomId1 uid1 un1 env1 with hsh | hsh
    · rw [hsh, hnone] at h1; cases h1
    · rw [hsh, Option.some_inj] at h1
      subst h1
      simp [freshGame]
  · intro hinv
    induction reqs generalizing s2 with
    | nil => exact fun g3 h3 => hinv g3 h3
    | cons r rest ih =>
      obtain ⟨rn, ru, runame⟩ := r
      exact ih _ (joinGame_preserves_nodup s2 rn ru runame hinv)

/-- Concrete one-player waiting game with `pot = entryAmount * 1`, used to
witness C4 and C5. -/
def w4Game : Game :=
  { id := 4, roomId := 7, status := .waiting, entryAmount := 10, pot := 10,
    currentRound := 0,
    players := [{ userId := 1, username := "alice", isEliminated := false,
                  hasDrawn := false, currentCard := none }],
    startedBy := 1, startedByUsername := "alice", createdAt := 400,
    joinDeadline := some 31000 }

def w4State : RoomState :=
  { game := some w4Game, deck := none, timer := none, credits := fun _ => 100 }

/-- Witness for C4: a fresh start snapshot and a successful join both keep
`pot = entryAmount * |players|`. -/
theorem pot_invariant_witness :
    ((freshGame 1000 7 1 "alice" c6Env).players.length = 1
     ∧ (freshGame 1000 7 1 "alice" c6Env).pot =
         (freshGame 1000 7 1 "alice" c6Env).entryAmount *
           (freshGame 1000 7 1 "alice" c6Env).players.length)
    ∧ (∃ g3, (joinGame w4State 500 2 "bob").2.game = some g3
        ∧ g3.players.length = w4Game.players.length + 1
        ∧ g3.pot = w4Game.pot + w4Game.entryAmount
        ∧ g3.entryAmount = w4Game.entryAmount) :=
  have T := pot_invariant c6State 1000 7 1 "alice" c6Env w4State 500 2 "bob"
    w4Game rfl rfl (by decide)
  ⟨T.1 (freshGame 1000 7 1 "alice" c6Env) (by decide), T.2.2 (by decide)⟩

/-- Witness for C5: alice cannot join twice, and the state is untouched. -/
theorem joinGame_no_duplicate_witness :
    ((1 : Nat) ∈ w4Game.players.map Player.userId
     ∧ w4State.game = some w4Game)
    ∧ (joinGame w4State 500 1 "alice").1.success = false
    ∧ (joinGame w4State 500 1 "alice").2 = w4State :=
  have T := joinGame_no_duplicate w4State 500 1 "alice" w4Game c6State 1000 7
    1 "alice" c6Env w4State [(500, 2, "bob")] rfl (by decide)
  ⟨⟨by decide, rfl⟩, T.1.1, T.1.2⟩

/-! ### drawCardForPlayer (claim C9) -/

/-- `drawCardFromDeck(roomId)`: takes the stored deck (regenerating a fresh
shuffled deck — the `fresh` parameter — when the key is missing or the deck
is empty), pops the last card and stores the remainder. -/
def drawCardFromDeck (s : RoomState) (fresh : List Card) :
    Option Card × RoomState :=
  let deck := match s.deck with
    | some l => if l.isEmpty then fresh else l
    | none => fresh
  (deck.getLast?, { s with deck := some deck.dropLast })

/-- In-place update `players[idx].currentCard = card; hasDrawn = true` at
the first index found by
`findIndex(p => p.userId == userId && !p.isEliminated)`. -/
def setDrawn (uid : Nat) (c : Option Card) : List Player → List Player
  | [] => []
  | p :: ps =>
    if p.userId == uid && !p.isEliminated then
      { p with currentCard := c, hasDrawn := true } :: ps
    else p :: setDrawn uid c ps

/-- Body of `drawCardForPlayer` once the snapshot `g` has been read. -/
def drawCardForPlayerWith (s : RoomState) (g : Game) (now userId : Nat)
    (username : String) (fresh : List Card) : OpResult × RoomState :=
  if g.status ≠ .playing then
    ({ success := false, message := "Game is not in progress." }, s)
  else if (match g.countdownEndsAt with
           | some c => decide (now < c)
           | none => false) then
    ({ success := false, message := "Wait for countdown to finish.",
       silent := true }, s)
  else
    match g.players.find? (fun p => p.userId == userId && !p.isEliminated) with
    | none =>
      ({ success := false, message := "[PVT] You are not in this game",
         isPvt := true }, s)
    | some player =>
      if g.isTieBreaker && !player.inTieBreaker then
        ({ success := false,
           message := "[PVT] " ++ username ++
             ": Only tied players can draw now. Please wait...",
           isPvt := true }, s)
      else if player.hasDrawn then
        ({ success := false,
           message := "[PVT] " ++ username ++ ": you already drew.",
           isPvt := true }, s)
      else
        let drawn := drawCardFromDeck s fresh
        let g2 := { g with players := setDrawn userId drawn.1 g.players }
        ({ success := true, message := username ++ ": drew" },
         { drawn.2 with game := some g2 })

/-- `drawCardForPlayer(roomId, userId, username)`: silent reject when there
is no game, else `drawCardForPlayerWith` on the stored snapshot.  The draw
lock is modelled as acquired. -/
def drawCardForPlayer (s : RoomState) (now userId : Nat) (username : String)
    (fresh : List Card) : OpResult × RoomState :=
  match s.game with
  | none => ({ success := false, silent := true }, s)
  | some g => drawCardForPlayerWith s g now userId username fresh

theorem drawCardForPlayer_some_eq (s : RoomState) (g : Game)
    (now userId : Nat) (username : String) (fresh : List Card)
    (hg : s.game = some g) :
    drawCardForPlayer s now userId username fresh =
      drawCardForPlayerWith s g now userId username fresh := by
  unfold drawCardForPlayer
  rw [hg]

/-- Under distinct user ids, the first-match in-place update equals a map
that rewrites the unique matching player. -/
theorem setDrawn_eq_map (uid : Nat) (c : Option Card) (ps : List Player)
    (hnd : (ps.map Player.userId).Nodup) :
    setDrawn uid c ps = ps.map (fun p =>
      if p.userId = uid ∧ p.isEliminated = false then
        { p with currentCard := c, hasDrawn := true }
      else p) := by
  induction ps with
  | nil => rfl
  | cons p ps ih =>
    simp only [List.map_cons, List.nodup_cons] at hnd
    have hsd : setDrawn uid c (p :: ps) =
        if p.userId == uid && !p.isEliminated then
          { p with currentCard := c, hasDrawn := true } :: ps
        else p :: setDrawn uid c ps := rfl
    by_cases hcond : (p.userId == uid && !p.isEliminated) = true
    · have hc2 : p.userId = uid ∧ p.isEliminated = false := by
        simp only [Bool.and_eq_true, beq_iff_eq, Bool.not_eq_true'] at hcond
        exact hcond
      have hps : ps.map (fun q =>
          if q.userId = uid ∧ q.isEliminated = false then
            { q with currentCard := c, hasDrawn := true }
          else q) = ps.map id := by
        apply List.map_congr_left
        intro q hq
        have hquid : q.userId ≠ uid := by
          intro hqe
          apply hnd.1
          have hmem : q.userId ∈ ps.map Player.userId :=
            List.mem_map_of_mem _ hq
          rw [hqe] at hmem
          rw [hc2.1]
          exact hmem
        rw [if_neg (fun hh => hquid hh.1)]
        rfl
      rw [hsd, if_pos hcond, List.map_cons, if_pos hc2, hps, List.map_id]
    · have hc2 : ¬(p.userId = uid ∧ p.isEliminated = false) := by
        simp only [Bool.and_eq_true, beq_iff_eq, Bool.not_eq_true'] at hcond
        exact hcond
      rw [hsd, if_neg hcond, List.map_cons, if_neg hc2, ih hnd.2]

/-- A draw request fails a guard: the game is not `playing`, the countdown
has not ended, the caller is not a non-eliminated player of the game, the
caller is outside a running tie-breaker, or the caller has already drawn. -/
def drawGuardFails (g : Game) (now userId : Nat) : Prop :=
  g.status ≠ .playing
  ∨ (∃ cd, g.countdownEndsAt = some cd ∧ now < cd)
  ∨ (∀ p ∈ g.players, ¬(p.userId = userId ∧ p.isEliminated = false))
  ∨ (∃ p, g.players.find?
        (fun q => q.userId == userId && !q.isEliminated) = some p
      ∧ ((g.isTieBreaker = true ∧ p.inTieBreaker = false)
         ∨ p.hasDrawn = true))

/-- C9.  `drawCardForPlayer` rejects with `success = false` and leaves the
room state untouched exactly when a guard fails; otherwise it pops the last
card of the stored deck, records it as the caller's `currentCard`, sets the
caller's `hasDrawn`, persists the snapshot and moves no money. -/
theorem drawCardForPlayer_guards (s : RoomState) (g : Game)
    (now userId : Nat) (username : String) (fresh : List Card)
    (d : List Card)
    (hg : s.game = some g)
    (hnd : (g.players.map Player.userId).Nodup)
    (hdeck : s.deck = some d) (hdne : d ≠ []) :
    (drawGuardFails g now userId →
       (drawCardForPlayer s now userId username fresh).1.success = false
       ∧ (drawCardForPlayer s now userId username fresh).2 = s)
    ∧ (¬drawGuardFails g now userId →
       (drawCardForPlayer s now userId username fresh).1.success = true
       ∧ ∃ c, d.getLast? = some c
         ∧ (drawCardForPlayer s now userId username fresh).2.deck =
             some d.dropLast
         ∧ (drawCardForPlayer s now userId username fresh).2.credits =
             s.credits
         ∧ (drawCardForPlayer s now userId username fresh).2.game =
             some { g with players := g.players.map (fun p =>
               if p.userId = userId ∧ p.isEliminated = false then
                 { p with currentCard := some c, hasDrawn := true }
               else p) }) := by
  rw [drawCardForPlayer_some_eq s g now userId username fresh hg]
  have hcountLem : ((match g.countdownEndsAt with
      | some c => decide (now < c)
      | none => false) = true) ↔
      (∃ cd, g.countdownEndsAt = some cd ∧ now < cd) := by
    cases hc : g.countdownEndsAt with
    | none => simp
    | some cd => simp
  have hfindLem : ∀ p : Player,
      ((p.userId == userId && !p.isEliminated) = true) ↔
        (p.userId = userId ∧ p.isEliminated = false) := by
    intro p
    simp [Bool.and_eq_true, Bool.not_eq_true']
  constructor
  · intro hG
    unfold drawCardForPlayerWith
    by_cases h1 : g.status ≠ .playing
    · rw [if_pos h1]; exact ⟨rfl, rfl⟩
    · rw [if_neg h1]
      by_cases h2 : (match g.countdownEndsAt with
          | some c => decide (now < c)
          | none => false) = true
      · rw [if_pos h2]; exact ⟨rfl, rfl⟩
      · rw [if_neg h2]
        cases hf : g.players.find?
            (fun q => q.userId == userId && !q.isEliminated) with
        | none => exact ⟨rfl, rfl⟩
        | some player =>
          dsimp only
          by_cases h4 : (g.isTieBreaker && !player.inTieBreaker) = true
          · rw [if_pos h4]; exact ⟨rfl, rfl⟩
          · rw [if_neg h4]
            by_cases h5 : player.hasDrawn = true
            · rw [if_pos h5]; exact ⟨rfl, rfl⟩
            · exfalso
              rcases hG with hGa | hGb | hGc | hGd
              · exact h1 hGa
              · exact h2 (hcountLem.mpr hGb)
              · have : g.players.find?
                    (fun q => q.userId == userId && !q.isEliminated) = none := by
                  rw [List.find?_eq_none]
                  intro p hp
                  simp only [hfindLem]
                  exact hGc p hp
                rw [this] at hf; cases hf
              · rcases hGd with ⟨p, hp, hdisj⟩
                rw [hf, Option.some_inj] at hp
                subst hp
                rcases hdisj with ⟨ht, hnt⟩ | hdrew
                · apply h4
                  rw [ht, hnt]
                  rfl
                · exact h5 hdrew
  · intro hG
    unfold drawGuardFails at hG
    push_neg at hG
    obtain ⟨hGa, hGb, hGc, hGd⟩ := hG
    have h1 : ¬(g.status ≠ .playing) := fun h => h hGa
    have h2 : ¬((match g.countdownEndsAt with
        | some c => decide (now < c)
        | none => false) = true) := by
      intro h
      rcases hcountLem.mp h with ⟨cd, hcd, hlt⟩
      exact absurd hlt (by have := hGb cd hcd; omega)
    obtain ⟨p0, hp0, hpid⟩ := hGc
    have hfne : g.players.find?
        (fun q => q.userId == userId && !q.isEliminated) ≠ none := by
      intro hnone
      rw [List.find?_eq_none] at hnone
      exact (hnone p0 hp0) ((hfindLem p0).mpr hpid)
    cases hf : g.players.find?
        (fun q => q.userId == userId && !q.isEliminated) with
    | none => exact absurd hf hfne
    | some player =>
      have hpl := hGd player hf
      have h4 : ¬((g.isTieBreaker && !player.inTieBreaker) = true) := by
        intro h
        simp only [Bool.and_eq_true, Bool.not_eq_true'] at h
        exact absurd (And.intro h.1 h.2) (fun hc => hpl.1 hc.1 hc.2)
      have h5 : player.hasDrawn ≠ true := hpl.2
      unfold drawCardForPlayerWith
      rw [if_neg h1, if_neg h2, hf]
      dsimp only
      rw [if_neg h4, if_neg h5]
      have hdempty : d.isEmpty = false := by
        cases d with
        | nil => exact absurd rfl hdne
        | cons a l => rfl
      have hdeckeq : drawCardFromDeck s fresh =
          (d.getLast?, { s with deck := some d.dropLast }) := by
        unfold drawCardFromDeck
        rw [hdeck]
        dsimp only
        rw [hdempty]
        rfl
      obtain ⟨c, hc⟩ : ∃ c, d.getLast? = some c := by
        cases hdl : d.getLast? with
        | none => exact absurd (List.getLast?_eq_none_iff.mp hdl) hdne
        | some c => exact ⟨c, rfl⟩
      refine ⟨rfl, c, hc, ?_, rfl, ?_⟩
      · dsimp only
        rw [hdeckeq]
      · dsimp only
        rw [hdeckeq]
        dsimp only
        rw [hc]
        rw [setDrawn_eq_map userId (some c) g.players hnd]

def w9p1 : Player :=
  { userId := 1, username := "alice", isEliminated := false,
    hasDrawn := false, currentCard := none }

def w9p2 : Player :=
  { userId := 2, username := "bob", isEliminated := false,
    hasDrawn := false, currentCard := none }

/-- Concrete playing game past its countdown, used to witness C9. -/
def w9Game : Game :=
  { id := 9, roomId := 7, status := .playing, entryAmount := 10, pot := 20,
    currentRound := 1, players := [w9p1, w9p2],
    startedBy := 1, startedByUsername := "alice", createdAt := 0,
    joinDeadline := some 31000, countdownEndsAt := some 500,
    roundDeadline := some 20500 }

def w9Deck : List Card :=
  [{ value := 5, suit := "h", code := "lc_5h", image := "lc_5h.png" },
   { value := 9, suit := "d", code := "lc_9d", image := "lc_9d.png" }]

def w9State : RoomState :=
  { game := some w9Game, deck := some w9Deck, timer := none,
    credits := fun _ => 90 }

/-- Witness for C9: a guarded draw (before the countdown) is rejected with
no state change, and an unguarded draw succeeds and pops the deck. -/
theorem drawCardForPlayer_guards_witness :
    ((drawCardForPlayer w9State 100 1 "alice" []).1.success = false
     ∧ (drawCardForPlayer w9State 100 1 "alice" []).2 = w9State)
    ∧ (drawCardForPlayer w9State 1000 1 "alice" []).1.success = true
    ∧ (drawCardForPlayer w9State 1000 1 "alice" []).2.deck =
        some w9Deck.dropLast := by
  have Tearly := drawCardForPlayer_guards w9State w9Game 100 1 "alice" []
    w9Deck rfl (by decide) rfl (by decide)
  have Tlate := drawCardForPlayer_guards w9State w9Game 1000 1 "alice" []
    w9Deck rfl (by decide) rfl (by decide)
  have hG : drawGuardFails w9Game 100 1 :=
    Or.inr (Or.inl ⟨500, rfl, by omega⟩)
  have hnG : ¬drawGuardFails w9Game 1000 1 := by
    intro h
    rcases h with h | h | h | h
    · exact h rfl
    · rcases h with ⟨cd, hcd, hlt⟩
      injection hcd with h2
      omega
    · exact h w9p1 (by decide) (by decide)
    · rcases h with ⟨p, hp, hdisj⟩
      have hfind : w9Game.players.find?
          (fun q => q.userId == 1 && !q.isEliminated) = some w9p1 := by decide
      rw [hfind, Option.some_inj] at hp
      subst hp
      rcases hdisj with ⟨ht, _⟩ | hdrew
      · exact absurd ht (by decide)
      · exact absurd hdrew (by decide)
  have h2 := Tlate.2 hnG
  obtain ⟨c, hc, hdk, hcr, hgm⟩ := h2.2
  exact ⟨Tearly.1 hG, h2.1, hdk⟩

/-! ### finishGame and tallyRound (claims C1, C2) -/

/-- Return object of `finishGame`. -/
structure FinishResult where
  gameOver : Bool
  winnerId : Option Nat
  winnerUsername : Option String
  winnings : Int
  houseFee : Int
  pot : Int
  eliminated : Option String
deriving DecidableEq, Repr

/-- `finishGame(roomId, game, remainingPlayers, loser)`: marks the game
finished, computes `houseFee = floor(pot * 10 / 100)` and
`winnings = pot - houseFee`, credits the winner (the first remaining
player) with `winnings`, and deletes every room key.  The merchant
commission is paid out of the house fee by the external durable store and
touches no player balance. -/
def finishGame (now : Nat) (g : Game) (remainingPlayers : List Player)
    (loser : Option Player) (s : RoomState) : FinishResult × RoomState :=
  let winner := remainingPlayers.head?
  let houseFee : Int := Int.fdiv (g.pot * HOUSE_FEE_PERCENT) 100
  let winnings : Int := g.pot - houseFee
  match winner with
  | some w =>
    ({ gameOver := true, winnerId := some w.userId,
       winnerUsername := some w.username, winnings := winnings,
       houseFee := houseFee, pot := g.pot,
       eliminated := loser.map Player.username },
     cleanupRedisKeys
       { s with credits := addCredits s.credits w.userId winnings })
  | none =>
    ({ gameOver := true, winnerId := none, winnerUsername := none,
       winnings := winnings, houseFee := houseFee, pot := g.pot,
       eliminated := loser.map Player.username },
     cleanupRedisKeys s)

/-- Outcome of `tallyRound`. -/
inductive TallyResult where
  | noGame
  | errorNoPlayers
  | nullResult
  | finished (fr : FinishResult)
  | eliminatedNext (eliminatedName : String) (nextRound : Nat)
  | tie (tiedCount : Nat) (nextRound : Nat)
deriving DecidableEq, Repr

/-- The players whose cards count this round: non-eliminated holders of a
card, restricted to `inTieBreaker` players during a tie-breaker. -/
def currentHandsPlayers (g : Game) : List Player :=
  if g.isTieBreaker then
    g.players.filter
      (fun p => !p.isEliminated && p.inTieBreaker && p.currentCard.isSome)
  else
    g.players.filter (fun p => !p.isEliminated && p.currentCard.isSome)

/-- `player.currentCard.value`; only ever read on players that hold a
card. -/
def cardVal (p : Player) : Int :=
  match p.currentCard with
  | some c => c.value
  | none => 0

/-- One step of the lowest-hand scan: compares by
`player.currentCard.value - lowestHands[0].currentCard.value` only. -/
def lowestStep (acc : List Player) (p : Player) : List Player :=
  match acc with
  | [] => [p]
  | q :: _ =>
    let cmp := cardVal p - cardVal q
    if cmp < 0 then [p]
    else if cmp = 0 then acc ++ [p]
    else acc

/-- The loop accumulating every in-scope holder of the minimal card
value. -/
def lowestHands (g : Game) : List Player :=
  (currentHandsPlayers g).foldl lowestStep []

/-- `players[findIndex(p => p.userId == loserId)].isEliminated = true`
(first match only, nothing when absent). -/
def markEliminated (loserId : Nat) : List Player → List Player
  | [] => []
  | p :: ps =>
    if p.userId == loserId then { p with isEliminated := true } :: ps
    else p :: markEliminated loserId ps

/-- The loop clearing `inTieBreaker` on every player. -/
def clearTieFlags (ps : List Player) : List Player :=
  ps.map (fun p => { p with inTieBreaker := false })

/-- Body of `tallyRound` once the snapshot `g` has been read. -/
def tallyRoundWith (s : RoomState) (g : Game) (now : Nat) :
    TallyResult × RoomState :=
  if (currentHandsPlayers g).isEmpty then (.errorNoPlayers, s)
  else
    match lowestHands g with
    | [] =>
      -- clears tie flags on the local object but neither persists nor
      -- returns a result (`return null`)
      (.nullResult, s)
    | [loser] =>
      let ps1 := clearTieFlags (markEliminated loser.userId g.players)
      let g1 := { g with players := ps1, isTieBreaker := false }
      let remaining := ps1.filter (fun p => !p.isEliminated)
      if remaining.length < 2 then
        let frs := finishGame now g1 remaining (some loser) s
        (.finished frs.1, frs.2)
      else
        let ps2 := ps1.map (fun p =>
          if p.isEliminated then p
          else { p with hasDrawn := false, currentCard := none })
        let g2 := { g1 with
          players := ps2, currentRound := g.currentRound + 1,
          isRoundStarted := true,
          countdownEndsAt := some (now + COUNTDOWN_DELAY),
          roundDeadline := some (now + COUNTDOWN_DELAY + DRAW_TIMEOUT),
          wasTieBreaker := false }
        (.eliminatedNext loser.username g2.currentRound,
         { s with game := some g2 })
    | a :: b :: rest =>
      let tiedIds := (a :: b :: rest).map Player.userId
      let ps2 := g.players.map (fun p =>
        if p.isEliminated then p
        else if tiedIds.contains p.userId then
          { p with
            hasDrawn := false, currentCard := none, inTieBreaker := true }
        else { p with inTieBreaker := false })
      let g2 := { g with
        players := ps2, isTieBreaker := true, wasTieBreaker := true,
        currentRound := g.currentRound + 1, isRoundStarted := true,
        countdownEndsAt := some (now + COUNTDOWN_DELAY),
        roundDeadline := some (now + COUNTDOWN_DELAY + DRAW_TIMEOUT) }
      (.tie (a :: b :: rest).length g2.currentRound,
       { s with game := some g2 })

/-- `tallyRound(roomId)`: no-op when there is no game, else
`tallyRoundWith` on the stored snapshot. -/
def tallyRound (s : RoomState) (now : Nat) : TallyResult × RoomState :=
  match s.game with
  | none => (.noGame, s)
  | some g => tallyRoundWith s g now

theorem tallyRound_some_eq (s : RoomState) (g : Game) (now : Nat)
    (hg : s.game = some g) :
    tallyRound s now = tallyRoundWith s g now := by
  unfold tallyRound
  rw [hg]

theorem sum_map_neg_const (e : Int) (l : List Player) :
    (l.map (fun _ => -e)).sum = -e * l.length := by
  induction l with
  | nil => simp
  | cons p ps ih =>
    rw [List.map_cons, List.sum_cons, ih, List.length_cons]
    push_cast
    ring

theorem sum_map_indicator (l : List Player) (wid : Nat) (W : Int) :
    (l.map (fun p => if p.userId = wid then W else 0)).sum =
      W * (l.countP (fun p => p.userId = wid)) := by
  induction l with
  | nil => simp
  | cons p ps ih =>
    rw [List.map_cons, List.sum_cons, ih, List.countP_cons]
    by_cases h : p.userId = wid <;> simp [h] <;> push_cast <;> ring

/-- C1.  For a game played to completion (`pot = entryAmount * n`, distinct
user ids, a unique remaining non-eliminated player `w`): `finishGame`
computes `houseFee = floor(pot * 10 / 100)` and
`winnings = pot - houseFee`, credits exactly `winnings` to `w` and to
nobody else, and the signed credit deltas of the whole game — each player
`-entryAmount`, the winner additionally `+winnings` — sum to
`-houseFee`. -/
theorem finishGame_conservation (now : Nat) (g : Game)
    (loser : Option Player) (s : RoomState) (w : Player)
    (hrem : g.players.filter (fun p => !p.isEliminated) = [w])
    (hpot : g.pot = g.entryAmount * g.players.length)
    (hnd : (g.players.map Player.userId).Nodup) :
    (finishGame now g (g.players.filter (fun p => !p.isEliminated))
        loser s).1.houseFee = Int.fdiv (g.pot * 10) 100
    ∧ (finishGame now g (g.players.filter (fun p => !p.isEliminated))
        loser s).1.winnings =
        g.pot - (finishGame now g (g.players.filter (fun p => !p.isEliminated))
          loser s).1.houseFee
    ∧ (finishGame now g (g.players.filter (fun p => !p.isEliminated))
        loser s).2.credits w.userId =
        s.credits w.userId +
          (finishGame now g (g.players.filter (fun p => !p.isEliminated))
            loser s).1.winnings
    ∧ (∀ u, u ≠ w.userId →
        (finishGame now g (g.players.filter (fun p => !p.isEliminated))
          loser s).2.credits u = s.credits u)
    ∧ (g.players.map (fun p => -g.entryAmount +
        (if p.userId = w.userId then
          (finishGame now g (g.players.filter (fun p => !p.isEliminated))
            loser s).1.winnings
         else 0))).sum =
        -(finishGame now g (g.players.filter (fun p => !p.isEliminated))
          loser s).1.houseFee := by
  have hw : w ∈ g.players := by
    have : w ∈ g.players.filter (fun p => !p.isEliminated) := by
      rw [hrem]; exact List.mem_singleton_self w
    exact List.mem_of_mem_filter this
  unfold finishGame
  rw [hrem]
  dsimp only [List.head?, cleanupRedisKeys]
  refine ⟨rfl, rfl, ?_, ?_, ?_⟩
  · rw [addCredits_same]
  · intro u hu
    rw [addCredits_other _ _ _ _ hu]
  · rw [List.sum_map_add, sum_map_neg_const, sum_map_indicator,
      countP_userId_eq_one g.players hnd w hw, hpot]
    push_cast
    ring

/-- Running minimum of card values over a player list, seeded with `v`. -/
def minAux (v : Int) (l : List Player) : Int :=
  l.foldl (fun m p => min m (cardVal p)) v

theorem minAux_le (l : List Player) : ∀ v : Int, minAux v l ≤ v := by
  induction l with
  | nil => intro v; exact le_refl v
  | cons p ps ih =>
    intro v
    calc minAux v (p :: ps) = minAux (min v (cardVal p)) ps := rfl
      _ ≤ min v (cardVal p) := ih _
      _ ≤ v := min_le_left _ _

theorem minAux_le_mem (l : List Player) :
    ∀ (v : Int) (q : Player), q ∈ l → minAux v l ≤ cardVal q := by
  induction l with
  | nil => intro v q h; cases h
  | cons p ps ih =>
    intro v q hq
    rcases List.mem_cons.mp hq with h | h
    · subst h
      calc minAux v (q :: ps) = minAux (min v (cardVal q)) ps := rfl
        _ ≤ min v (cardVal q) := minAux_le ps _
        _ ≤ cardVal q := min_le_right _ _
    · exact ih _ q h

/-- The lowest-hand scan, started on a nonempty accumulator of players all
holding value `v`, ends nonempty, holds exactly the minimal value, and
holds exactly the minimal-valued players seen. -/
theorem foldl_lowestStep_spec (l : List Player) :
    ∀ (acc : List Player) (v : Int), acc ≠ [] → (∀ p ∈ acc, cardVal p = v) →
      (l.foldl lowestStep acc ≠ []
       ∧ (∀ p ∈ l.foldl lowestStep acc, cardVal p = minAux v l)
       ∧ (∀ p, p ∈ l.foldl lowestStep acc ↔
            ((p ∈ acc ∧ v = minAux v l)
             ∨ (p ∈ l ∧ cardVal p = minAux v l)))) := by
  induction l with
  | nil =>
    intro acc v hne hacc
    refine ⟨hne, hacc, ?_⟩
    intro p
    constructor
    · intro hp; exact Or.inl ⟨hp, rfl⟩
    · rintro (⟨hp, _⟩ | ⟨hp, _⟩)
      · exact hp
      · cases hp
  | cons q l ih =>
    intro acc v hne hacc
    cases acc with
    | nil => exact absurd rfl hne
    | cons a rest =>
      have ha : cardVal a = v := hacc a (List.mem_cons_self a rest)
      have hstep : ∀ res : List Player,
          lowestStep (a :: rest) q = res →
          List.foldl lowestStep (a :: rest) (q :: l) =
            List.foldl lowestStep res l := by
        intro res hres
        rw [List.foldl_cons, hres]
      rcases lt_trichotomy (cardVal q) v with hlt | heq | hgt
      · -- strictly lower card: the accumulator is reset to [q]
        have hres : lowestStep (a :: rest) q = [q] := by
          unfold lowestStep
          dsimp only
          rw [ha, if_pos (by omega)]
        rw [hstep [q] hres]
        have hmin : minAux v (q :: l) = minAux (cardVal q) l := by
          show minAux (min v (cardVal q)) l = minAux (cardVal q) l
          rw [min_eq_right (le_of_lt hlt)]
        obtain ⟨hne2, hval2, hmem2⟩ := ih [q] (cardVal q)
          (by simp) (by simp)
        refine ⟨hne2, by rw [hmin]; exact hval2, ?_⟩
        intro p
        rw [hmin]
        rw [hmem2 p]
        have hvne : v ≠ minAux (cardVal q) l := by
          have h1 := minAux_le l (cardVal q)
          omega
        constructor
        · rintro (⟨hp, hq⟩ | ⟨hp, hq⟩)
          · rcases List.mem_singleton.mp hp with rfl
            exact Or.inr ⟨List.mem_cons_self _ _, hq⟩
          · exact Or.inr ⟨List.mem_cons_of_mem _ hp, hq⟩
        · rintro (⟨hp, hq⟩ | ⟨hp, hq⟩)
          · exact absurd hq hvne
          · rcases List.mem_cons.mp hp with rfl | hp2
            · exact Or.inl ⟨List.mem_singleton_self _, hq⟩
            · exact Or.inr ⟨hp2, hq⟩
      · -- equal card: appended to the accumulator
        have hres : lowestStep (a :: rest) q = (a :: rest) ++ [q] := by
          unfold lowestStep
          dsimp only
          rw [ha, if_neg (by omega), if_pos (by omega)]
        rw [hstep _ hres]
        have hmin : minAux v (q :: l) = minAux v l := by
          show minAux (min v (cardVal q)) l = minAux v l
          rw [heq, min_self]
        obtain ⟨hne2, hval2, hmem2⟩ := ih ((a :: rest) ++ [q]) v
          (by simp)
          (by intro p hp
              rcases List.mem_append.mp hp with h | h
              · exact hacc p h
              · rcases List.mem_singleton.mp h with rfl; exact heq)
        refine ⟨hne2, by rw [hmin]; exact hval2, ?_⟩
        intro p
        rw [hmin, hmem2 p]
        constructor
        · rintro (⟨hp, hq⟩ | ⟨hp, hq⟩)
          · rcases List.mem_append.mp hp with h | h
            · exact Or.inl ⟨h, hq⟩
            · rcases List.mem_singleton.mp h with rfl
              exact Or.inr ⟨List.mem_cons_self _ _, by rw [heq]; exact hq⟩
          · exact Or.inr ⟨List.mem_cons_of_mem _ hp, hq⟩
        · rintro (⟨hp, hq⟩ | ⟨hp, hq⟩)
          · exact Or.inl ⟨List.mem_append_left _ hp, hq⟩
          · rcases List.mem_cons.mp hp with rfl | hp2
            · exact Or.inl ⟨List.mem_append_right _ (List.mem_singleton_self _),
                heq ▸ hq⟩
            · exact Or.inr ⟨hp2, hq⟩
      · -- strictly higher card: skipped
        have hres : lowestStep (a :: rest) q = a :: rest := by
          unfold lowestStep
          dsimp only
          rw [ha, if_neg (by omega), if_neg (by omega)]
        rw [hstep _ hres]
        have hmin : minAux v (q :: l) = minAux v l := by
          show minAux (min v (cardVal q)) l = minAux v l
          rw [min_eq_left (le_of_lt hgt)]
        obtain ⟨hne2, hval2, hmem2⟩ := ih (a :: rest) v hne hacc
        refine ⟨hne2, by rw [hmin]; exact hval2, ?_⟩
        intro p
        rw [hmin, hmem2 p]
        have hqne : cardVal q ≠ minAux v l := by
          have h1 := minAux_le l v
          omega
        constructor
        · rintro (⟨hp, hq⟩ | ⟨hp, hq⟩)
          · exact Or.inl ⟨hp, hq⟩
          · exact Or.inr ⟨List.mem_cons_of_mem _ hp, hq⟩
        · rintro (⟨hp, hq⟩ | ⟨hp, hq⟩)
          · exact Or.inl ⟨hp, hq⟩
          · rcases List.mem_cons.mp hp with rfl | hp2
            · exact absurd hq hqne
            · exact Or.inr ⟨hp2, hq⟩

/-- `lowestHands` is exactly the set of in-scope players whose card value
is minimal among the in-scope players; it is nonempty whenever some player
is in scope. -/
theorem lowestHands_spec (g : Game) (hne : currentHandsPlayers g ≠ []) :
    lowestHands g ≠ []
    ∧ (∀ p, p ∈ lowestHands g ↔
        (p ∈ currentHandsPlayers g
         ∧ ∀ q ∈ currentHandsPlayers g, cardVal p ≤ cardVal q)) := by
  cases hch : currentHandsPlayers g with
  | nil => exact absurd hch hne
  | cons h t =>
    have heq : lowestHands g = t.foldl lowestStep [h] := by
      unfold lowestHands
      rw [hch, List.foldl_cons]
      rfl
    obtain ⟨hne2, hval2, hmem2⟩ := foldl_lowestStep_spec t [h] (cardVal h)
      (by simp) (by simp)
    have hlow : ∀ q ∈ (h :: t), minAux (cardVal h) t ≤ cardVal q := by
      intro q hq
      rcases List.mem_cons.mp hq with rfl | hq2
      · exact minAux_le t _
      · exact minAux_le_mem t _ q hq2
    have hattain : ∃ p₀, p₀ ∈ lowestHands g
        ∧ cardVal p₀ = minAux (cardVal h) t := by
      rw [heq]
      cases hfl : t.foldl lowestStep [h] with
      | nil => exact absurd hfl hne2
      | cons p₀ r =>
        refine ⟨p₀, List.mem_cons_self _ _, ?_⟩
        apply hval2
        rw [hfl]
        exact List.mem_cons_self _ _
    refine ⟨by rw [heq]; exact hne2, ?_⟩
    intro p
    rw [heq, hmem2 p]
    constructor
    · rintro (⟨hp, hq⟩ | ⟨hp, hq⟩)
      · rcases List.mem_singleton.mp hp with rfl
        exact ⟨List.mem_cons_self _ _, by rw [hq]; exact hlow⟩
      · exact ⟨List.mem_cons_of_mem _ hp,
          by rw [hq]; exact hlow⟩
    · rintro ⟨hp, hq⟩
      obtain ⟨p₀, hp₀, hv₀⟩ := hattain
      have hp₀hands : p₀ ∈ (h :: t) := by
        rw [heq] at hp₀
        rcases (hmem2 p₀).mp hp₀ with ⟨hm, _⟩ | ⟨hm, _⟩
        · rcases List.mem_singleton.mp hm with rfl
          exact List.mem_cons_self _ _
        · exact List.mem_cons_of_mem _ hm
      have hple : cardVal p ≤ minAux (cardVal h) t := by
        rw [← hv₀]
        exact hq p₀ hp₀hands
      have hpeq : cardVal p = minAux (cardVal h) t :=
        le_antisymm hple (hlow p hp)
      rcases List.mem_cons.mp hp with rfl | hp2
      · exact Or.inl ⟨List.mem_singleton_self _, hpeq⟩
      · exact Or.inr ⟨hp2, hpeq⟩

/-- Under distinct user ids, the first-match elimination equals a map that
eliminates the unique player with the loser's id. -/
theorem markEliminated_eq_map (uid : Nat) (ps : List Player)
    (hnd : (ps.map Player.userId).Nodup) :
    markEliminated uid ps = ps.map (fun p =>
      if p.userId = uid then { p with isEliminated := true } else p) := by
  induction ps with
  | nil => rfl
  | cons p ps ih =>
    simp only [List.map_cons, List.nodup_cons] at hnd
    have hme : markEliminated uid (p :: ps) =
        if p.userId == uid then { p with isEliminated := true } :: ps
        else p :: markEliminated uid ps := rfl
    by_cases hcond : (p.userId == uid) = true
    · have hc2 : p.userId = uid := by simpa using hcond
      have hps : ps.map (fun q =>
          if q.userId = uid then { q with isEliminated := true } else q) =
          ps.map id := by
        apply List.map_congr_left
        intro q hq
        have hquid : q.userId ≠ uid := by
          intro hqe
          apply hnd.1
          have hmem : q.userId ∈ ps.map Player.userId :=
            List.mem_map_of_mem _ hq
          rw [hqe] at hmem
          rw [hc2]
          exact hmem
        rw [if_neg hquid]
        rfl
      rw [hme, if_pos hcond, List.map_cons, if_pos hc2, hps, List.map_id]
    · have hc2 : p.userId ≠ uid := by simpa using hcond
      rw [hme, if_neg hcond, List.map_cons, if_neg hc2, ih hnd.2]

/-- Eliminating the loser and then clearing every tie flag, as one map. -/
theorem clearTie_markEliminated_eq_map (uid : Nat) (ps : List Player)
    (hnd : (ps.map Player.userId).Nodup) :
    clearTieFlags (markEliminated uid ps) = ps.map (fun p =>
      if p.userId = uid then
        { p with isEliminated := true, inTieBreaker := false }
      else { p with inTieBreaker := false }) := by
  rw [markEliminated_eq_map uid ps hnd]
  unfold clearTieFlags
  rw [List.map_map]
  apply List.map_congr_left
  intro p hp
  by_cases h : p.userId = uid
  · simp only [Function.comp, if_pos h]
  · simp only [Function.comp, if_neg h]

/-- C2.  Whenever some player is in scope (and user ids are distinct,
invariant I2), `tallyRound`: (1) computes `lowestHands` as exactly the
in-scope players of minimal card value, comparing values only, never
suits; (2) on a unique lowest it eliminates exactly that player, clears
all tie state, and hands the game to `finishGame` when fewer than two
players survive, otherwise bumps the round and resets `hasDrawn` and
`currentCard` on every surviving player; (3) on two or more tied lowest it
sets `isTieBreaker` and `wasTieBreaker`, resets the drawn state and sets
`inTieBreaker` exactly on the tied players, bumps the round and eliminates
nobody. -/
theorem tallyRound_resolution (s : RoomState) (g : Game) (now : Nat)
    (hg : s.game = some g)
    (hnd : (g.players.map Player.userId).Nodup)
    (hne : currentHandsPlayers g ≠ []) :
    (∀ p, p ∈ lowestHands g ↔
        (p ∈ currentHandsPlayers g
         ∧ ∀ q ∈ currentHandsPlayers g, cardVal p ≤ cardVal q))
    ∧ (∀ loser, lowestHands g = [loser] →
        ((g.players.map (fun p =>
             if p.userId = loser.userId then
               { p with isEliminated := true, inTieBreaker := false }
             else { p with inTieBreaker := false })).filter
               (fun p => !p.isEliminated)).length < 2 →
          tallyRound s now =
            (.finished (finishGame now
                { g with
                  players := g.players.map (fun p =>
                    if p.userId = loser.userId then
                      { p with isEliminated := true, inTieBreaker := false }
                    else { p with inTieBreaker := false }),
                  isTieBreaker := false }
                ((g.players.map (fun p =>
                    if p.userId = loser.userId then
                      { p with isEliminated := true, inTieBreaker := false }
                    else { p with inTieBreaker := false })).filter
                      (fun p => !p.isEliminated))
                (some loser) s).1,
             (finishGame now
                { g with
                  players := g.players.map (fun p =>
                    if p.userId = loser.userId then
                      { p with isEliminated := true, inTieBreaker := false }
                    else { p with inTieBreaker := false }),
                  isTieBreaker := false }
                ((g.players.map (fun p =>
                    if p.userId = loser.userId then
                      { p with isEliminated := true, inTieBreaker := false }
                    else { p with inTieBreaker := false })).filter
                      (fun p => !p.isEliminated))
                (some loser) s).2))
    ∧ (∀ loser, lowestHands g = [loser] →
        2 ≤ ((g.players.map (fun p =>
             if p.userId = loser.userId then
               { p with isEliminated := true, inTieBreaker := false }
             else { p with inTieBreaker := false })).filter
               (fun p => !p.isEliminated)).length →
          ∃ g2, tallyRound s now =
              (.eliminatedNext loser.username (g.currentRound + 1),
               { s with game := some g2 })
            ∧ g2.currentRound = g.currentRound + 1
            ∧ g2.isTieBreaker = false
            ∧ g2.wasTieBreaker = false
            ∧ g2.players = (g.players.map (fun p =>
                if p.userId = loser.userId then
                  { p with isEliminated := true, inTieBreaker := false }
                else { p with inTieBreaker := false })).map (fun p =>
                  if p.isEliminated then p
                  else { p with hasDrawn := false, currentCard := none }))
    ∧ (2 ≤ (lowestHands g).length →
        ∃ g2, tallyRound s now =
            (.tie (lowestHands g).length (g.currentRound + 1),
             { s with game := some g2 })
          ∧ g2.currentRound = g.currentRound + 1
          ∧ g2.isTieBreaker = true
          ∧ g2.wasTieBreaker = true
          ∧ g2.players = g.players.map (fun p =>
              if p.isEliminated then p
              else if ((lowestHands g).map Player.userId).contains p.userId then
                { p with
                  hasDrawn := false, currentCard := none, inTieBreaker := true }
              else { p with inTieBreaker := false })
          ∧ g2.players.map Player.isEliminated =
              g.players.map Player.isEliminated) := by
  have hempty : (currentHandsPlayers g).isEmpty = false := by
    cases hch : currentHandsPlayers g with
    | nil => exact absurd hch hne
    | cons a t => rfl
  have hTR : tallyRound s now = tallyRoundWith s g now :=
    tallyRound_some_eq s g now hg
  refine ⟨(lowestHands_spec g hne).2, ?_, ?_, ?_⟩
  · intro loser hlow hlen
    rw [hTR]
    unfold tallyRoundWith
    rw [hempty]
    simp only [Bool.false_eq_true, if_false]
    rw [hlow]
    dsimp only
    rw [clearTie_markEliminated_eq_map loser.userId g.players hnd]
    rw [if_pos hlen]
  · intro loser hlow hlen
    rw [hTR]
    unfold tallyRoundWith
    rw [hempty]
    simp only [Bool.false_eq_true, if_false]
    rw [hlow]
    dsimp only
    rw [clearTie_markEliminated_eq_map loser.userId g.players hnd]
    rw [if_neg (by omega)]
    exact ⟨_, rfl, rfl, rfl, rfl, rfl⟩
  · intro hlen
    cases hlow : lowestHands g with
    | nil => rw [hlow] at hlen; simp at hlen
    | cons a t =>
      cases t with
      | nil => rw [hlow] at hlen; simp at hlen
      | cons b rest =>
        rw [hTR]
        unfold tallyRoundWith
        rw [hempty]
        simp only [Bool.false_eq_true, if_false]
        rw [hlow]
        dsimp only
        refine ⟨_, rfl, rfl, rfl, rfl, rfl, ?_⟩
        rw [List.map_map]
        apply List.map_congr_left
        intro p hp
        by_cases h1 : p.isEliminated = true
        · simp only [Function.comp, if_pos h1]
        · by_cases h2 : (((a :: b :: rest).map Player.userId).contains
              p.userId) = true
          · simp only [Function.comp, if_neg h1, if_pos h2]
          · simp only [Function.comp, if_neg h1, if_neg h2]

def c1w : Player :=
  { userId := 3, username := "carol", isEliminated := false,
    hasDrawn := true, currentCard := none }

/-- Three-player finished game: alice and bob eliminated, carol remains;
entry 10, pot 30. -/
def c1Game : Game :=
  { id := 11, roomId := 7, status := .playing, entryAmount := 10, pot := 30,
    currentRound := 2,
    players := [
      { userId := 1, username := "alice", isEliminated := true,
        hasDrawn := true, currentCard := none },
      { userId := 2, username := "bob", isEliminated := true,
        hasDrawn := true, currentCard := none },
      c1w],
    startedBy := 1, startedByUsername := "alice", createdAt := 0,
    joinDeadline := some 31000 }

def c1State : RoomState :=
  { game := some c1Game, deck := none, timer := none, credits := fun _ => 70 }

/-- Witness for C1 at the concrete finished game (fee 3, winnings 27). -/
theorem finishGame_conservation_witness :
    (c1Game.players.filter (fun p => !p.isEliminated) = [c1w]
     ∧ c1Game.pot = c1Game.entryAmount * c1Game.players.length
     ∧ (c1Game.players.map Player.userId).Nodup)
    ∧ (finishGame 999 c1Game
        (c1Game.players.filter (fun p => !p.isEliminated)) none
        c1State).1.houseFee = Int.fdiv (c1Game.pot * 10) 100
    ∧ (finishGame 999 c1Game
        (c1Game.players.filter (fun p => !p.isEliminated)) none
        c1State).1.winnings =
        c1Game.pot - (finishGame 999 c1Game
          (c1Game.players.filter (fun p => !p.isEliminated)) none
          c1State).1.houseFee
    ∧ (finishGame 999 c1Game
        (c1Game.players.filter (fun p => !p.isEliminated)) none
        c1State).2.credits c1w.userId =
        c1State.credits c1w.userId + (finishGame 999 c1Game
          (c1Game.players.filter (fun p => !p.isEliminated)) none
          c1State).1.winnings := by
  have T := finishGame_conservation 999 c1Game none c1State c1w
    (by decide) (by decide) (by decide)
  exact ⟨⟨by decide, by decide, by decide⟩, T.1, T.2.1, T.2.2.1⟩

def w2a : Player :=
  { userId := 1, username := "alice", isEliminated := false,
    hasDrawn := true,
    currentCard :=
      some { value := 5, suit := "h", code := "lc_5h", image := "lc_5h.png" } }

def w2b : Player :=
  { userId := 2, username := "bob", isEliminated := false,
    hasDrawn := true,
    currentCard :=
      some { value := 9, suit := "d", code := "lc_9d", image := "lc_9d.png" } }

def w2c : Player :=
  { userId := 3, username := "carol", isEliminated := false,
    hasDrawn := true,
    currentCard :=
      some { value := 13, suit := "s", code := "lc_ks", image := "lc_ks.png" } }

/-- Three players with cards 5, 9, 13: alice holds the unique lowest. -/
def w2Game : Game :=
  { id := 12, roomId := 7, status := .playing, entryAmount := 10, pot := 30,
    currentRound := 1, players := [w2a, w2b, w2c],
    startedBy := 1, startedByUsername := "alice", createdAt := 0,
    joinDeadline := some 31000 }

def w2State : RoomState :=
  { game := some w2Game, deck := none, timer := none, credits := fun _ => 70 }

/-- Witness for C2: alice (card 5) is the unique lowest and is eliminated,
with two survivors and a bumped round. -/
theorem tallyRound_resolution_witness :
    (w2State.game = some w2Game
     ∧ (w2Game.players.map Player.userId).Nodup
     ∧ currentHandsPlayers w2Game ≠ [])
    ∧ lowestHands w2Game = [w2a]
    ∧ ∃ g2, tallyRound w2State 777 =
          (.eliminatedNext w2a.username (w2Game.currentRound + 1),
           { w2State with game := some g2 })
        ∧ g2.currentRound = w2Game.currentRound + 1
        ∧ g2.isTieBreaker = false := by
  have T := tallyRound_resolution w2State w2Game 777 rfl (by decide)
    (by decide)
  have hlow : lowestHands w2Game = [w2a] := by decide
  obtain ⟨g2, heq, hr, htb, _⟩ := T.2.2.1 w2a hlow (by decide)
  exact ⟨⟨rfl, by decide, by decide⟩, hlow, g2, heq, hr, htb⟩

end LowCard
